import Mathlib

/-!
Shallow embedding of the common_core C string-utility library
(src/common_core/src/common_core.c), together with theorems settling the
specification claims about Trim, GetSubstringOccurrenceCount,
StringReplace, Split, IsUppercase and IsOneOf.

C strings are modelled as `List Char` (null-free byte sequences); reading a
byte past the terminator yields `'\x00'`.  Machine `int` values that are
provably non-negative are modelled as `Nat`; the signed buffer-size
arithmetic in StringReplace is modelled with `Int`.  Loops whose progress
measure is a pointer or index advancing through the source are modelled by
structural recursion on that measure (the first `Nat` argument of each
loop function), instantiated at the exact bound the C loop condition
enforces, so that every function reduces definitionally on concrete input.
-/

namespace CommonCore

/-- C `isspace` restricted to ASCII, as used byte-wise by the library. -/
def isspaceChar (c : Char) : Bool :=
  c = ' ' || c = '\t' || c = '\n' || c = '\x0b' || c = '\x0c' || c = '\r'

/-- C `isupper` restricted to ASCII. -/
def isupperChar (c : Char) : Bool :=
  'A' ≤ c && c ≤ 'Z'

/-- The null byte; reading a C string at or past its terminator yields it. -/
def nullChar : Char := '\x00'

/-- The byte of the C string `s` at index `i` (`*(str + i)`), or the null
terminator when `i` is out of range. -/
def byteAt (s : List Char) (i : Nat) : Char :=
  s.getD i nullChar

/-!
Section: Trim (common_core.c lines 661 to 695)

```
void Trim(char *out, size_t len, const char *str) {
  if (len == 0) return;
  memset(out, 0, len);
  const char *end;
  int leading_space_trimmed = 0;
  end = str + strlen(str) - 1;
  if (!isspace((unsigned char)*str)) { *out = *str; out++; }
  while (*str++ != 0 && str <= end && strlen(out) <= len) {
    if (isspace((unsigned char)*end)) { end--; }
    if (!leading_space_trimmed && isspace((unsigned char)*str)) { continue; }
    if (str == end && isspace((unsigned char)*str)
        && isspace((unsigned char)*end)) { break; }
    leading_space_trimmed = 1;
    *out = *str;
    out++;
  }
}
```

`trimGo` models one evaluation of the loop condition with the pointer `str`
at index `i`: the condition reads `s[i]` (non-null exactly when
`i < s.length`), advances `str` to `i + 1`, and compares the advanced
pointer against `end` at index `e`; the body then reads `*str = s[i + 1]`.
`acc` is the sequence of bytes written so far and `l` is the
`leading_space_trimmed` flag.  The conjunct `strlen(out) <= len` of the C
loop condition always holds whenever every write so far landed inside the
zero-filled destination, because `out` then points at a zero byte and
`strlen(out) = 0`; the model therefore covers a destination of size at
least `strlen(str) + 1`, which bounds all writes (at most one initial
write plus one write per loop iteration).  The loop runs at most
`s.length - i` further times since `str` advances every iteration and the
condition requires `i < s.length`; the structural `fuel` argument carries
exactly that bound.
-/

def trimGo (s : List Char) : Nat → Nat → Nat → Bool → List Char → List Char
  | 0, _, _, _, acc => acc
  | fuel + 1, e, i, l, acc =>
    if i < s.length ∧ i + 1 ≤ e then
      -- the body runs with the pointer at index `i + 1`
      let e' := if isspaceChar (byteAt s e) then e - 1 else e
      if !l && isspaceChar (byteAt s (i + 1)) then
        trimGo s fuel e' (i + 1) l acc
      else if i + 1 = e' && isspaceChar (byteAt s (i + 1)) &&
          isspaceChar (byteAt s e') then
        acc
      else
        trimGo s fuel e' (i + 1) true (acc ++ [byteAt s (i + 1)])
    else
      acc

/-- The bytes `Trim(out, len, str)` writes into a destination of size
`len ≥ strlen(str) + 1` (large enough that no write is truncated).  For the
empty string the initial `*out = *str` copies the terminator into the
already-zeroed buffer, so the result is empty. -/
def trim (s : List Char) : List Char :=
  match s with
  | [] => []
  | c :: _ =>
    trimGo s s.length (s.length - 1) 0 false (if isspaceChar c then [] else [c])

/-!
Section: IsNullOrWhiteSpace (lines 285 to 297)

The C function trims the string into a stack buffer of size
`strlen(pszTest) + 1` (large enough for every write Trim performs) and
reports whether the trimmed result is empty.
-/

/-- Model of `IsNullOrWhiteSpace`: true when the string is absent or empty, or trims
to the empty string. -/
def isNullOrWhiteSpace (s : List Char) : Bool :=
  s.isEmpty || (trim s).isEmpty

/-!
Section: GetSubstringOccurrenceCount (lines 148 to 173)

```
const int FIND_WHAT_LEN = strlen(pszFindWhat);
for (int i = 0; i < strlen(pszSrc) && pszSrc[i] != 0; i++) {
  if (strstr(&pszSrc[i], pszFindWhat) != &pszSrc[i]) { continue; }
  nResult++;
  i += FIND_WHAT_LEN;
}
```

For a non-empty needle, `strstr(&src[i], find) == &src[i]` holds exactly
when `find` is a prefix of the suffix of `src` starting at `i`.  After a
match the body adds `FIND_WHAT_LEN` to `i` and the `for` update adds one
more, so the scan resumes `FIND_WHAT_LEN + 1` positions further on.  The
index `i` grows by at least one per iteration and the loop requires
`i < src.length`, so `src.length - i` bounds the remaining iterations; the
structural `fuel` argument carries an upper bound on that quantity. -/
def occCountGo (src find : List Char) : Nat → Nat → Nat
  | 0, _ => 0
  | fuel + 1, i =>
    if i < src.length then
      if find.isPrefixOf (src.drop i) then
        occCountGo src find fuel (i + find.length + 1) + 1
      else
        occCountGo src find fuel (i + 1)
    else
      0

/-- Model of `GetSubstringOccurrenceCount`: 0 when either argument is absent or
empty, otherwise the count produced by the scan above.  The C `int` result
is provably non-negative, so it is modelled as `Nat`. -/
def getSubstringOccurrenceCount (src find : List Char) : Nat :=
  if src.isEmpty then 0
  else if find.isEmpty then 0
  else occCountGo src find src.length 0

/-!
Section: StringReplace (lines 593 to 653)

The guards return early, leaving the pointer referenced by `ppszResult`
untouched (modelled as `none`), when `pszSrc` or `pszFindWhat` is absent or
empty.  Otherwise the function allocates `BUFSIZE + 1` bytes where

```
DELTA = strlen(pszReplaceWith) - strlen(pszFindWhat);
nOccurrences = DELTA == 0 ? 0
             : GetSubstringOccurrenceCount(pszSrc, pszFindWhat);
BUFSIZE = DELTA == 0 ? nSrcLen : nSrcLen + nOccurrences * DELTA;
```

and then runs a scan that, at each position, either copies
`pszReplaceWith` and skips `strlen(pszFindWhat)` source bytes when
`pszFindWhat` is a prefix of the remaining source
(`strstr(pszSrc, pszFindWhat) == pszSrc`), or copies one source byte; the
writes are strictly sequential (the write index always equals the number
of bytes already written), so the loop is modelled as producing the list
of written bytes.  A final null byte is written after the loop.  Each
iteration consumes at least one source byte, so the remaining source
length bounds the remaining iterations; the structural `fuel` argument
carries exactly that bound.
-/

/-- The replacement loop of `StringReplace`, for the non-empty needle
`f :: fs`; returns the bytes written, excluding the final terminator. -/
def stringReplaceLoop (f : Char) (fs repl : List Char) :
    Nat → List Char → List Char
  | 0, _ => []
  | fuel + 1, s =>
    match s with
    | [] => []
    | c :: rest =>
      if (f :: fs).isPrefixOf (c :: rest) then
        repl ++ stringReplaceLoop f fs repl fuel (rest.drop fs.length)
      else
        c :: stringReplaceLoop f fs repl fuel rest

/-- Model of `StringReplace`: `none` models an early return that leaves the pointer
referenced by `ppszResult` unchanged. -/
def stringReplace (src find repl : List Char) : Option (List Char) :=
  match src, find with
  | [], _ => none
  | _ :: _, [] => none
  | c :: cs, f :: fs => some (stringReplaceLoop f fs repl (c :: cs).length (c :: cs))

/-- The number of bytes `StringReplace` allocates for the result
(`BUFSIZE + 1`), for non-empty `src` and `find`.  `DELTA` and `BUFSIZE` are
C `int` values and may be negative in intermediate steps, so the arithmetic
is over `Int`. -/
def stringReplaceAllocSize (src find repl : List Char) : Int :=
  let delta : Int := (repl.length : Int) - (find.length : Int)
  let occ : Int :=
    if delta = 0 then 0 else (getSubstringOccurrenceCount src find : Int)
  let bufsize : Int :=
    if delta = 0 then (src.length : Int) else (src.length : Int) + occ * delta
  bufsize + 1

/-!
Section: Split (lines 460 to 576)

Split guards on a blank source, absent output locations and an absent or
empty delimiter set; then it repeatedly calls `strtok`, copying each token
into a freshly-allocated string, growing the result array by one per token
and incrementing the element count once per token.  `strtokNext` models one
`strtok` call on the rest of the buffer: skip leading delimiter bytes,
return `none` at the end of the string, otherwise return the maximal
non-delimiter run and the remaining buffer (each successful call consumes
at least one byte, so the remaining length bounds the number of tokens
still to come; the structural `fuel` argument of `splitTokens` carries that
bound).  `none` from `split` models an early return leaving the output
locations untouched.
-/

/-- Membership of a byte in the delimiter set (C `strtok` treats the
delimiter string as a set of bytes). -/
def isDelim (d : List Char) (c : Char) : Bool := d.contains c

/-- One `strtok` call: `none` when only delimiters remain, otherwise the
next token together with the unconsumed rest of the buffer. -/
def strtokNext (d s : List Char) : Option (List Char × List Char) :=
  match s.dropWhile (fun c => isDelim d c) with
  | [] => none
  | c :: rest =>
    some (c :: rest.takeWhile (fun x => !isDelim d x),
      rest.dropWhile (fun x => !isDelim d x))

/-- The count and token-array pair built by the tokenizing loop of Split:
the count is incremented once per extracted token, in step with the array
growth. -/
def splitTokens (d : List Char) : Nat → List Char → Nat × List (List Char)
  | 0, _ => (0, [])
  | fuel + 1, s =>
    match strtokNext d s with
    | none => (0, [])
    | some (t, rest) =>
      let p := splitTokens d fuel rest
      (p.1 + 1, t :: p.2)

/-- Model of `Split`: `none` models an early return that leaves the output locations
`*pppszStrings` and `*pnResultCount` untouched; otherwise the reported
count and the token array. -/
def split (s d : List Char) : Option (Nat × List (List Char)) :=
  if isNullOrWhiteSpace s then none
  else if d.isEmpty then none
  else some (splitTokens d s.length s)

/-!
Section: IsUppercase (lines 331 to 361)

After the blank guard, the C function allocates `TEST_SIZE = strlen + 1`
bytes, trims the input into that buffer (which Trim zero-fills first and
whose writes all land inside it), and then scans all `TEST_SIZE` bytes:
null bytes are skipped, any other byte failing `isupper` returns FALSE
immediately, and reaching the end of the buffer returns TRUE.
-/

/-- The byte scan of `IsUppercase`: skip null bytes, fail on the first
non-uppercase byte. -/
def scanUpper : List Char → Bool
  | [] => true
  | c :: rest =>
    if c = nullChar then scanUpper rest
    else if !isupperChar c then false
    else scanUpper rest

/-- Model of `IsUppercase`: blank guard, then the scan over the trimmed buffer of
size `strlen + 1` (the trimmed content followed by the zero-filled
slack). -/
def isUppercase (s : List Char) : Bool :=
  if isNullOrWhiteSpace s then false
  else
    scanUpper (trim s ++ List.replicate (s.length + 1 - (trim s).length) nullChar)

/-!
Section: IsOneOf (lines 323 to 326)

```
BOOL IsOneOf(char chTest, const char* pszPossibilities, int nPossibilities) {
  // TODO: Add implementation code here
  return FALSE;
}
```
-/

/-- Model of `IsOneOf`: an unimplemented stub returning FALSE for every input. -/
def isOneOf (_chTest : Char) (_pszPossibilities : List Char)
    (_nPossibilities : Int) : Bool :=
  false

/-!
Section: Theorems settling the claims
-/

/-- C1: the claim that Trim removes exactly the leading and trailing
ASCII-whitespace runs and leaves all other bytes unchanged in order fails
on the code.  Because the initial copy of a non-whitespace first byte does
not set the `leading_space_trimmed` flag, the first interior whitespace run
of a string with no leading whitespace is dropped: trimming `"a b"` yields
`"ab"`.  Because `end` retreats only one position per loop iteration while
`str` advances, an even-length trailing whitespace run is only half
consumed: trimming `"ab  "` yields `"ab "`, keeping a trailing space. -/
theorem trim_mangles_interior_and_trailing_space :
    trim "a b".toList = "ab".toList ∧ trim "ab  ".toList = "ab ".toList := by
  decide

/-- C2: the claim that Trim is idempotent fails on the code.  Trimming
`"ab  "` yields `"ab "` (one trailing space survives), and trimming that
again yields `"ab"`, so the second application changes the result. -/
theorem trim_not_idempotent_on_double_trailing_space :
    trim (trim "ab  ".toList) ≠ trim "ab  ".toList := by
  decide

/-- C3: the claim that GetSubstringOccurrenceCount counts non-overlapping
occurrences by skipping forward by the needle length after each match, with
`GetSubstringOccurrenceCount("aaaa", "aa") == 2`, fails on the code.  After
a match the body adds the needle length to the loop index and the `for`
update adds one more, so adjacent occurrences are missed: the code returns
1 for `("aaaa", "aa")` and also 1 for `("banana", "an")`, whose two
occurrences sit exactly one needle length apart. -/
theorem occurrenceCount_undercounts_adjacent_occurrences :
    getSubstringOccurrenceCount "aaaa".toList "aa".toList = 1 ∧
    getSubstringOccurrenceCount "banana".toList "an".toList = 1 := by
  decide

/-- C4: the claim that the buffer StringReplace allocates always suffices
for every byte the replacement loop writes fails on the code.  For source
`"aaaa"`, needle `"aa"` and replacement `"XXX"` the buggy occurrence count
(1 instead of 2) makes the code allocate
`BUFSIZE + 1 = (4 + 1 * 1) + 1 = 6` bytes, while the replacement loop
writes the six bytes of `"XXXXXX"` plus a terminator, seven bytes in all,
one byte past the allocation. -/
theorem stringReplace_alloc_smaller_than_bytes_written :
    stringReplaceAllocSize "aaaa".toList "aa".toList "XXX".toList = 6 ∧
    (stringReplace "aaaa".toList "aa".toList "XXX".toList).map
      (fun r => r.length + 1) = some 7 := by
  decide

/-- A direct rendering of the spec sentence for StringReplace, named apart
from the code embedding for comparison: scan the text left to right;
whenever the next needle-length bytes equal the non-empty needle `f :: fs`,
that non-overlapping occurrence is replaced (the replacement is emitted and
the scan skips ahead by the needle length); otherwise the byte does not
start an occurrence and is kept unchanged.  The structural `fuel` argument
bounds the number of scan steps by the remaining text length. -/
def specReplaceScan (f : Char) (fs repl : List Char) :
    Nat → List Char → List Char
  | 0, _ => []
  | fuel + 1, s =>
    match s with
    | [] => []
    | c :: rest =>
      if (c :: rest).take (f :: fs).length = f :: fs then
        repl ++ specReplaceScan f fs repl fuel (rest.drop fs.length)
      else
        c :: specReplaceScan f fs repl fuel rest

theorem isPrefixOf_iff_take (p s : List Char) :
    p.isPrefixOf s = true ↔ s.take p.length = p := by
  induction p generalizing s with
  | nil => simp [List.isPrefixOf]
  | cons a as ih =>
    cases s with
    | nil => simp [List.isPrefixOf]
    | cons b bs =>
      simp only [List.isPrefixOf, Bool.and_eq_true, beq_iff_eq, ih,
        List.length_cons, List.take_succ_cons, List.cons.injEq]
      constructor
      · rintro ⟨h1, h2⟩; exact ⟨h1.symm, h2⟩
      · rintro ⟨h1, h2⟩; exact ⟨h1.symm, h2⟩

theorem stringReplaceLoop_eq_spec (f : Char) (fs repl : List Char) :
    ∀ fuel s, stringReplaceLoop f fs repl fuel s
      = specReplaceScan f fs repl fuel s := by
  intro fuel
  induction fuel with
  | zero => intro s; rfl
  | succ n ih =>
    intro s
    cases s with
    | nil => rfl
    | cons c rest =>
      have hb := isPrefixOf_iff_take (f :: fs) (c :: rest)
      by_cases h : (c :: rest).take (f :: fs).length = f :: fs
      · simp only [stringReplaceLoop, specReplaceScan, hb.mpr h, if_pos h,
          if_true, ih]
      · have hfalse : (f :: fs).isPrefixOf (c :: rest) = false := by
          rcases Bool.eq_false_or_eq_true ((f :: fs).isPrefixOf (c :: rest))
            with hf | ht
          · exact absurd (hb.mp hf) h
          · exact ht
        simp only [stringReplaceLoop, specReplaceScan, hfalse, if_neg h,
          Bool.false_eq_true, if_false, ih]

/-- C5: for every non-empty text and non-empty needle, StringReplace fills
the result with the text in which every non-overlapping occurrence of the
needle, found by the left-to-right scan that skips ahead by the needle
length after a match, is replaced by the replacement, all non-matching
bytes kept unchanged (an empty replacement deletes the needle). -/
theorem stringReplace_replaces_every_occurrence
    (src : List Char) (f : Char) (fs repl : List Char) (h : src ≠ []) :
    stringReplace src (f :: fs) repl
      = some (specReplaceScan f fs repl src.length src) := by
  cases src with
  | nil => exact absurd rfl h
  | cons c cs =>
    show some _ = some _
    rw [stringReplaceLoop_eq_spec]

/-- Witness for C5 at the concrete input of the claim:
`StringReplace("banana", "an", "X")` produces `"bXXa"`. -/
theorem stringReplace_banana_example :
    stringReplace "banana".toList ['a', 'n'] "X".toList
      = some "bXXa".toList :=
  (stringReplace_replaces_every_occurrence "banana".toList 'a' ['n']
    "X".toList (by decide)).trans (by decide)

/-- C6: StringReplace called with an empty text or an empty needle is a
no-op: it returns before touching the pointer referenced by the result
parameter (modelled by `none`) and raises no error. -/
theorem stringReplace_noop_on_empty_text_or_needle
    (src find repl : List Char) (h : src = [] ∨ find = []) :
    stringReplace src find repl = none := by
  rcases h with h | h
  · subst h; rfl
  · subst h
    cases src with
    | nil => rfl
    | cons c cs => rfl

/-- Witness for C6 at the concrete input of the claim:
`StringReplace("abc", "", "X")` leaves the result pointer unchanged. -/
theorem stringReplace_empty_needle_noop :
    stringReplace "abc".toList [] "X".toList = none :=
  stringReplace_noop_on_empty_text_or_needle "abc".toList [] "X".toList
    (Or.inr rfl)

theorem length_dropWhile_le (p : Char → Bool) (l : List Char) :
    (l.dropWhile p).length ≤ l.length := by
  induction l with
  | nil => exact le_rfl
  | cons a as ih =>
    by_cases ha : p a
    · rw [List.dropWhile_cons_of_pos ha]
      exact Nat.le_succ_of_le ih
    · rw [List.dropWhile_cons_of_neg ha]

theorem dropWhile_head_not (p : Char → Bool) :
    ∀ (l : List Char) (c : Char) (r : List Char),
      l.dropWhile p = c :: r → p c = false := by
  intro l
  induction l with
  | nil => intro c r h; cases h
  | cons a as ih =>
    intro c r h
    by_cases ha : p a
    · rw [List.dropWhile_cons_of_pos ha] at h
      exact ih c r h
    · rw [List.dropWhile_cons_of_neg ha] at h
      cases h
      exact Bool.eq_false_iff.mpr ha

theorem strtokNext_some_inv (d s t rest : List Char)
    (h : strtokNext d s = some (t, rest)) :
    ∃ c r, s.dropWhile (fun x => isDelim d x) = c :: r ∧
      isDelim d c = false ∧
      t = c :: r.takeWhile (fun x => !isDelim d x) ∧
      rest = r.dropWhile (fun x => !isDelim d x) := by
  unfold strtokNext at h
  rcases hd : s.dropWhile (fun x => isDelim d x) with _ | ⟨c, r⟩
  · rw [hd] at h; cases h
  · rw [hd] at h
    simp only [Option.some.injEq, Prod.mk.injEq] at h
    exact ⟨c, r, rfl, dropWhile_head_not _ s c r hd, h.1.symm, h.2.symm⟩

theorem strtokNext_rest_lt (d s t rest : List Char)
    (h : strtokNext d s = some (t, rest)) : rest.length < s.length := by
  obtain ⟨c, r, hd, _, _, hrest⟩ := strtokNext_some_inv d s t rest h
  have h1 : (s.dropWhile (fun x => isDelim d x)).length ≤ s.length :=
    length_dropWhile_le _ s
  rw [hd] at h1
  have h2 : (r.dropWhile (fun x => !isDelim d x)).length ≤ r.length :=
    length_dropWhile_le _ r
  rw [hrest]
  simp only [List.length_cons] at h1
  omega

theorem splitTokens_count_eq_length (d : List Char) :
    ∀ (fuel : Nat) (s : List Char),
      (splitTokens d fuel s).1 = (splitTokens d fuel s).2.length := by
  intro fuel
  induction fuel with
  | zero => intro s; rfl
  | succ n ih =>
    intro s
    rcases h : strtokNext d s with _ | ⟨t, rest⟩
    · simp [splitTokens, h]
    · simp [splitTokens, h, ih rest]

theorem splitTokens_tokens_ne_nil (d : List Char) :
    ∀ (fuel : Nat) (s t : List Char),
      t ∈ (splitTokens d fuel s).2 → t ≠ [] := by
  intro fuel
  induction fuel with
  | zero => intro s t h; cases h
  | succ n ih =>
    intro s t h
    rcases hs : strtokNext d s with _ | ⟨tk, rest⟩
    · rw [show splitTokens d (n + 1) s = (0, []) by simp [splitTokens, hs]]
        at h
      cases h
    · obtain ⟨c, r, _, _, htk, _⟩ := strtokNext_some_inv d s tk rest hs
      rw [show splitTokens d (n + 1) s
          = ((splitTokens d n rest).1 + 1, tk :: (splitTokens d n rest).2)
          by simp [splitTokens, hs]] at h
      rcases List.mem_cons.mp h with hh | hh
      · subst hh; rw [htk]; exact List.cons_ne_nil _ _
      · exact ih rest t hh

theorem filter_dropWhile_delim (d : List Char) (l : List Char) :
    (l.dropWhile (fun x => isDelim d x)).filter (fun x => !isDelim d x)
      = l.filter (fun x => !isDelim d x) := by
  induction l with
  | nil => rfl
  | cons a as ih =>
    by_cases ha : isDelim d a
    · rw [List.dropWhile_cons_of_pos ha, ih,
        List.filter_cons_of_neg (by simp [ha])]
    · rw [List.dropWhile_cons_of_neg ha]

theorem takeWhile_append_filter (p : Char → Bool) (l : List Char) :
    l.takeWhile p ++ (l.dropWhile p).filter p = l.filter p := by
  induction l with
  | nil => rfl
  | cons a as ih =>
    by_cases ha : p a
    · rw [List.takeWhile_cons_of_pos ha, List.dropWhile_cons_of_pos ha,
        List.filter_cons_of_pos ha, List.cons_append, ih]
    · rw [List.takeWhile_cons_of_neg ha, List.dropWhile_cons_of_neg ha,
        List.filter_cons_of_neg ha, List.nil_append]

theorem splitTokens_join (d : List Char) :
    ∀ (fuel : Nat) (s : List Char), s.length ≤ fuel →
      ((splitTokens d fuel s).2).flatten
        = s.filter (fun x => !isDelim d x) := by
  intro fuel
  induction fuel with
  | zero =>
    intro s hs
    rw [List.length_eq_zero.mp (Nat.le_zero.mp hs)]
    rfl
  | succ n ih =>
    intro s hs
    rcases h : strtokNext d s with _ | ⟨t, rest⟩
    · rw [show splitTokens d (n + 1) s = (0, []) by simp [splitTokens, h]]
      have hd : s.dropWhile (fun x => isDelim d x) = [] := by
        unfold strtokNext at h
        rcases hd : s.dropWhile (fun x => isDelim d x) with _ | ⟨c, r⟩
        · rfl
        · rw [hd] at h; cases h
      have := filter_dropWhile_delim d s
      rw [hd] at this
      exact this.symm ▸ rfl
    · obtain ⟨c, r, hdrop, hc, ht, hrest⟩ := strtokNext_some_inv d s t rest h
      rw [show splitTokens d (n + 1) s
          = ((splitTokens d n rest).1 + 1, t :: (splitTokens d n rest).2)
          by simp [splitTokens, h]]
      have hlt : rest.length < s.length := strtokNext_rest_lt d s t rest h
      have hrec := ih rest (by omega)
      show t ++ ((splitTokens d n rest).2).flatten
        = s.filter (fun x => !isDelim d x)
      rw [hrec, ht, hrest]
      have hfil : s.filter (fun x => !isDelim d x)
          = (c :: r).filter (fun x => !isDelim d x) := by
        rw [← filter_dropWhile_delim d s, hdrop]
      rw [hfil, List.filter_cons_of_pos (by simp [hc]), List.cons_append,
        takeWhile_append_filter]

/-- C7: for every non-blank source and non-empty delimiter set, Split sets
the outputs to a count and an ordered token array such that the count
equals the number of tokens, no token is the empty string (consecutive
delimiters collapse), and concatenating the tokens in order reproduces
exactly the non-delimiter bytes of the source in their original order. -/
theorem split_produces_nonempty_tokens_in_order
    (s d : List Char) (h1 : isNullOrWhiteSpace s = false) (h2 : d ≠ []) :
    ∃ count tokens,
      split s d = some (count, tokens) ∧
      count = tokens.length ∧
      (∀ t ∈ tokens, t ≠ []) ∧
      tokens.flatten = s.filter (fun x => !isDelim d x) := by
  refine ⟨(splitTokens d s.length s).1, (splitTokens d s.length s).2,
    ?_, ?_, ?_, ?_⟩
  · have hd : d.isEmpty = false := by
      cases d with
      | nil => exact absurd rfl h2
      | cons a as => rfl
    simp [split, h1, hd]
  · exact splitTokens_count_eq_length d s.length s
  · exact fun t ht => splitTokens_tokens_ne_nil d s.length s t ht
  · exact splitTokens_join d s.length s le_rfl

/-- Witness for C7 at a concrete input: splitting `"a,,b c"` on the
delimiter set `", "` collapses consecutive delimiters and yields the
non-empty tokens in order with an agreeing count. -/
theorem split_concrete_witness :
    ∃ count tokens,
      split "a,,b c".toList ", ".toList = some (count, tokens) ∧
      count = tokens.length ∧
      (∀ t ∈ tokens, t ≠ []) ∧
      tokens.flatten
        = "a,,b c".toList.filter (fun x => !isDelim ", ".toList x) :=
  split_produces_nonempty_tokens_in_order "a,,b c".toList ", ".toList
    (by decide) (by decide)

/-- C8 counterexample: the claim that `Split("", ",")` yields zero tokens
with a zero result count fails on the code: for a blank source Split
returns before writing anything, so the result count location is left
untouched rather than set to zero (`none`, not `some (0, [])`). -/
theorem split_blank_source_leaves_outputs_untouched :
    split "".toList ",".toList ≠ some (0, []) := by
  decide

/-- C8 amended: `Split("", ",")` is a complete no-op that leaves both
output locations untouched (so no tokens are produced and no failure is
raised), while `Split(",,,", ",")` writes a zero count and an empty token
array. -/
theorem split_boundary_zero_tokens :
    split "".toList ",".toList = none ∧
    split ",,,".toList ",".toList = some (0, []) := by
  decide

theorem scanUpper_replicate_null (k : Nat) :
    scanUpper (List.replicate k nullChar) = true := by
  induction k with
  | zero => rfl
  | succ n ih => simp [List.replicate, scanUpper, ih]

theorem scanUpper_append_replicate (t : List Char) (k : Nat) :
    scanUpper (t ++ List.replicate k nullChar) = scanUpper t := by
  induction t with
  | nil => simp [scanUpper, scanUpper_replicate_null k]
  | cons c rest ih =>
    by_cases hc : c = nullChar
    · simp [scanUpper, hc, ih]
    · by_cases hu : isupperChar c
      · simp [scanUpper, hc, hu, ih]
      · simp [scanUpper, hc, hu]

theorem scanUpper_eq_all (t : List Char) :
    scanUpper t = t.all (fun c => c == nullChar || isupperChar c) := by
  induction t with
  | nil => rfl
  | cons c rest ih =>
    by_cases hc : c = nullChar
    · simp [scanUpper, hc, ih]
    · by_cases hu : isupperChar c
      · simp [scanUpper, hc, hu, ih]
      · simp [scanUpper, hc, hu]

/-- C9: for every non-blank string, IsUppercase trims the string into a
zero-filled buffer of size `strlen + 1` and scans every byte of that
buffer, skipping null bytes (both any null inside the trimmed content and
the zero-filled slack past its end) and failing on the first byte that is
not an ASCII uppercase letter; the outcome therefore equals the test that
every non-null byte of the trimmed string is an uppercase letter. -/
theorem isUppercase_checks_trimmed_bytes (s : List Char)
    (h : isNullOrWhiteSpace s = false) :
    isUppercase s
      = (trim s).all (fun c => c == nullChar || isupperChar c) := by
  unfold isUppercase
  rw [h]
  simp only [Bool.false_eq_true, if_false]
  rw [scanUpper_append_replicate, scanUpper_eq_all]

/-- Witness for C9 at the concrete inputs of the claim:
`IsUppercase("HELLO")` is TRUE, `IsUppercase("HELLO1")` is FALSE, and
`IsUppercase("  HI  ")` is TRUE because the surrounding whitespace is
trimmed first. -/
theorem isUppercase_examples :
    isUppercase "HELLO".toList = true ∧
    isUppercase "HELLO1".toList = false ∧
    isUppercase "  HI  ".toList = true :=
  ⟨(isUppercase_checks_trimmed_bytes "HELLO".toList (by decide)).trans
      (by decide),
    (isUppercase_checks_trimmed_bytes "HELLO1".toList (by decide)).trans
      (by decide),
    (isUppercase_checks_trimmed_bytes "  HI  ".toList (by decide)).trans
      (by decide)⟩

/-- C10: IsOneOf is an unimplemented stub: it returns FALSE for every
character, every possibilities string and every count. -/
theorem isOneOf_always_false (c : Char) (p : List Char) (n : Int) :
    isOneOf c p n = false :=
  rfl

end CommonCore
